import Mathlib

set_option maxRecDepth 8000

/-!
Verification of the pretix → iFirma invoice pipeline
(`convertPretixtoiFirma.py` and `uploadToiFirma.py`).

JSON-like data is modelled by the inductive `Value`; Python dicts are
association lists `List (String × Value)` read through `List.lookup`
(first occurrence), which matches Python's unique-key dicts on every
structure the programs build.  Floats are modelled by exact rationals:
every numeric literal the pipeline handles is a short decimal, and the
claims under study do not depend on binary rounding.
-/

/-- Python's `str.strip()`: drop leading and trailing whitespace.
(Defined on the character list so that it computes definitionally;
the library `String.trim` is compiled by well-founded recursion and
does not reduce.) -/
def String.pyStrip (s : String) : String :=
  ⟨((s.data.dropWhile Char.isWhitespace).reverse.dropWhile
      Char.isWhitespace).reverse⟩

namespace PretixIFirma

/-- A JSON value, as produced by `json.load` / consumed by `json.dump`. -/
inductive Value where
  | null : Value
  | bool : Bool → Value
  | num : Rat → Value
  | str : String → Value
  | arr : List Value → Value
  | obj : List (String × Value) → Value
deriving Repr

/-- `v is None` in Python. -/
def Value.isNull : Value → Bool
  | .null => true
  | _ => false

/-- `isinstance(v, dict)` in Python. -/
def Value.isObj : Value → Bool
  | .obj _ => true
  | _ => false

mutual

/-- `remove_none_values` (uploadToiFirma.py lines 48–54): on a dict,
rebuild it keeping only entries whose value is not `None`, recursing into
the kept values; any non-dict value is returned unchanged. -/
def removeNoneValues : Value → Value
  | .obj kvs => .obj (removeNoneEntries kvs)
  | v => v

/-- The dict comprehension
`{k: remove_none_values(v) for k, v in d.items() if v is not None}`. -/
def removeNoneEntries : List (String × Value) → List (String × Value)
  | [] => []
  | (k, v) :: rest =>
    if v.isNull then removeNoneEntries rest
    else (k, removeNoneValues v) :: removeNoneEntries rest

end

/-! ## Record transformer (`convertPretixtoiFirma.py`)

Dates.  `convert_date` concatenates `"{date}T{time}Z"`, replaces `"Z"`
with `"+00:00"` and hands the result to `datetime.fromisoformat`.  The
pattern of the replace is the single character `Z`, so the replace is
embedded as a character-level substitution.  `fromisoformat` is library
code; it is embedded for the canonical shape the script builds,
`YYYY-MM-DDTHH:MM:SS+00:00`, with full calendar validation (month 1–12,
day within the month incl. leap years, hour ≤ 23, minute/second ≤ 59,
year 1–9999), everything else rejected. -/

def digitChar (n : Nat) : Char := Char.ofNat (48 + n)

def isLeapYear (y : Nat) : Bool := (y % 4 == 0 && y % 100 != 0) || y % 400 == 0

def daysInMonth (y m : Nat) : Nat :=
  if m = 2 then (if isLeapYear y then 29 else 28)
  else if m = 4 ∨ m = 6 ∨ m = 9 ∨ m = 11 then 30 else 31

/-- Successor day in the proleptic Gregorian calendar. -/
def nextDay : Nat × Nat × Nat → Nat × Nat × Nat
  | (y, m, d) =>
    if d < daysInMonth y m then (y, m, d + 1)
    else if m < 12 then (y, m + 1, 1)
    else (y + 1, 1, 1)

/-- `date + timedelta(days=n)` on the calendar-date part. -/
def addDays : Nat → Nat × Nat × Nat → Nat × Nat × Nat
  | 0, x => x
  | n + 1, x => addDays n (nextDay x)

/-- The parsed combined date-time (`datetime` object, UTC offset fixed). -/
structure DateT where
  year : Nat
  month : Nat
  day : Nat
  hour : Nat
  minute : Nat
  second : Nat
deriving Repr, DecidableEq

def digitVal? (c : Char) : Option Nat :=
  if c.isDigit then some (c.toNat - 48) else none

def twoDigits (a b : Char) : Option Nat :=
  match digitVal? a, digitVal? b with
  | some x, some y => some (10 * x + y)
  | _, _ => none

def fourDigits (a b c d : Char) : Option Nat :=
  match digitVal? a, digitVal? b, digitVal? c, digitVal? d with
  | some w, some x, some y, some z => some (1000 * w + 100 * x + 10 * y + z)
  | _, _, _, _ => none

def validDate (y m d : Nat) : Prop :=
  1 ≤ y ∧ y ≤ 9999 ∧ 1 ≤ m ∧ m ≤ 12 ∧ 1 ≤ d ∧ d ≤ daysInMonth y m

instance (y m d : Nat) : Decidable (validDate y m d) := by
  unfold validDate; infer_instance

def validTime (h mi s : Nat) : Prop := h ≤ 23 ∧ mi ≤ 59 ∧ s ≤ 59

instance (h mi s : Nat) : Decidable (validTime h mi s) := by
  unfold validTime; infer_instance

/-- `datetime.fromisoformat` on the canonical `YYYY-MM-DDTHH:MM:SS+00:00`
string the script constructs. -/
def parseIsoDatetime (s : String) : Option DateT :=
  match s.data with
  | [y1, y2, y3, y4, s1, mo1, mo2, s2, d1, d2, t1, h1, h2, c1, mi1, mi2,
     c2, se1, se2, p1, z1, z2, c3, z3, z4] =>
    if s1 = '-' ∧ s2 = '-' ∧ t1 = 'T' ∧ c1 = ':' ∧ c2 = ':' ∧ p1 = '+' ∧
       z1 = '0' ∧ z2 = '0' ∧ c3 = ':' ∧ z3 = '0' ∧ z4 = '0' then
      match fourDigits y1 y2 y3 y4, twoDigits mo1 mo2, twoDigits d1 d2,
            twoDigits h1 h2, twoDigits mi1 mi2, twoDigits se1 se2 with
      | some y, some mo, some dd, some hh, some mi, some ss =>
        if validDate y mo dd ∧ validTime hh mi ss then
          some ⟨y, mo, dd, hh, mi, ss⟩
        else none
      | _, _, _, _, _, _ => none
    else none
  | _ => none

/-- Character-level substitution (`str.replace` with a one-char pattern). -/
def replaceChar (c : Char) (rep : List Char) : List Char → List Char
  | [] => []
  | x :: xs =>
    if x = c then rep ++ replaceChar c rep xs else x :: replaceChar c rep xs

def pad2chars (n : Nat) : List Char := [digitChar (n / 10), digitChar (n % 10)]

def pad4chars (n : Nat) : List Char :=
  [digitChar (n / 1000), digitChar (n / 100 % 10), digitChar (n / 10 % 10),
   digitChar (n % 10)]

/-- `date.isoformat()`: `YYYY-MM-DD`, zero padded. -/
def isoDateStr (y m d : Nat) : String :=
  ⟨pad4chars y ++ ['-'] ++ pad2chars m ++ ['-'] ++ pad2chars d⟩

/-- `HH:MM:SS`, zero padded. -/
def isoTimeStr (h mi s : Nat) : String :=
  ⟨pad2chars h ++ [':'] ++ pad2chars mi ++ [':'] ++ pad2chars s⟩

def isoDateOfTriple (x : Nat × Nat × Nat) : String := isoDateStr x.1 x.2.1 x.2.2

/-- Errors raised inside the per-row conversion (all are `ValueError`s in
the source; both kinds are caught by the per-row handler). -/
inductive ConvErr where
  | malformedDate (dateStr timeStr : String)
  | malformedNumber (numStr : String)
deriving Repr, DecidableEq

/-- `convert_date` (convertPretixtoiFirma.py lines 20–33). -/
def convert_date (date_str time_str : String) :
    Except ConvErr (String × DateT) :=
  if date_str = "" ∨ time_str = "" then
    .error (.malformedDate date_str time_str)
  else
    let iso : String := date_str ++ "T" ++ time_str ++ "Z"
    match parseIsoDatetime ⟨replaceChar 'Z' "+00:00".data iso.data⟩ with
    | none => .error (.malformedDate date_str time_str)
    | some dt => .ok (isoDateStr dt.year dt.month dt.day, dt)

/-! Numbers.  `float_from_str` replaces the decimal comma with a point and
calls `float`.  `float` is embedded for plain decimal literals (optional
sign, integer and/or fractional digit runs), the only shapes these CSV
money fields take; exponent notation and the special values are outside
the modelled domain.  Values are exact rationals. -/

def digitsVal (l : List Char) : Nat :=
  l.foldl (fun a c => 10 * a + (c.toNat - 48)) 0

def allDigits (l : List Char) : Bool := l.all Char.isDigit

/-- The decimal value `⌊ip.fp⌋ = (ip·10^k + fp) / 10^k` is assembled with
a single `mkRat` (definitionally computable), which equals
`ip + fp / 10 ^ k`. -/
def parseUnsigned (l : List Char) : Option Rat :=
  match l.span (fun c => !(c == '.')) with
  | (intPart, []) =>
    if allDigits intPart && !intPart.isEmpty then
      some (mkRat (digitsVal intPart) 1)
    else none
  | (intPart, _dot :: fracPart) =>
    if allDigits intPart && allDigits fracPart &&
       !(intPart.isEmpty && fracPart.isEmpty) then
      some (mkRat (digitsVal (intPart ++ fracPart)) (10 ^ fracPart.length))
    else none

def parseDecimal : List Char → Option Rat
  | '+' :: rest => parseUnsigned rest
  | '-' :: rest => (parseUnsigned rest).map (fun q => -q)
  | l => parseUnsigned l

/-- `float_from_str` (convertPretixtoiFirma.py lines 35–45). -/
def float_from_str (num_str : String) : Except ConvErr Rat :=
  if num_str = "" then .ok 0
  else
    match parseDecimal (replaceChar ',' ['.'] num_str.data) with
    | some q => .ok q
    | none => .error (.malformedNumber num_str)

/-! The per-row conversion (`process_csv_to_ifirma_invoices`, lines
60–141).  A CSV row from `csv.DictReader` is a string-keyed dict; `.get`
returns the default only when the key is absent. -/

abbrev Row := List (String × String)

/-- `row.get(k, d)`. -/
def rowGet (row : Row) (k d : String) : String := (row.lookup k).getD d

/-- The line-item dict built at lines 92–99 (insertion order preserved). -/
def mkPosition (tax_rate quantity product_price : Rat)
    (product_name vat_type : String) : List (String × Value) :=
  [("StawkaVat", .num tax_rate),
   ("Ilosc", .num quantity),
   ("CenaJednostkowa", .num product_price),
   ("NazwaPelna", .str product_name),
   ("Jednostka", .str "sztuk"),
   ("TypStawkiVat", .str vat_type)]

/-- The counterparty dict built at lines 105–114. -/
def mkKontrahent (full_name email phone ulica kod kraj miasto : String) :
    List (String × Value) :=
  [("Nazwa", .str full_name),
   ("Email", .str email),
   ("Telefon", .str phone),
   ("Ulica", .str ulica),
   ("KodPocztowy", .str kod),
   ("Kraj", .str kraj),
   ("Miejscowosc", .str miasto),
   ("OsobaFizyczna", .bool true)]

/-- The invoice dict built at lines 117–138 (insertion order preserved). -/
def mkInvoice (total : Rat)
    (invoice_date miejsce payment_deadline order_code : String)
    (position kontrahent : List (String × Value)) : List (String × Value) :=
  [("Status", .str "DO_POTWIERDZENIA"),
   ("Zaplacono", .num total),
   ("LiczOd", .str "BRT"),
   ("NumerKontaBankowego", .null),
   ("DataWystawienia", .str invoice_date),
   ("MiejsceWystawienia", .str miejsce),
   ("DataSprzedazy", .str invoice_date),
   ("FormatDatySprzedazy", .str "DZN"),
   ("TerminPlatnosci", .str payment_deadline),
   ("SposobZaplaty", .str "PRZ"),
   ("NazwaSeriiNumeracji", .str "default"),
   ("NazwaSzablonu", .str ""),
   ("RodzajPodpisuOdbiorcy", .str "OUP"),
   ("PodpisOdbiorcy", .str "Odbiorca"),
   ("PodpisWystawcy", .str "Wystawca"),
   ("Uwagi", .str order_code),
   ("WidocznyNumerGios", .bool true),
   ("Numer", .null),
   ("Pozycje", .arr [.obj position]),
   ("Kontrahent", .obj kontrahent)]

/-- Line 75: `f"Wejście na wydarzenie {event_name}"`. -/
def productNameOf (row : Row) : String :=
  "Wejście na wydarzenie " ++ (rowGet row "Nazwa wydarzenia" "Wydarzenie").pyStrip

/-- Line 78: the tax-exempt-gross column if present and non-blank, else
the order total. -/
def priceFieldOf (row : Row) : String :=
  let brutto := (rowGet row "Brutto dla podatku 0.00 %" "").pyStrip
  if brutto = "" then (rowGet row "Suma zamówienia" "0,00").pyStrip else brutto

/-- Line 104: `f"{first_name} {last_name}".strip() or email or "Klient"`. -/
def fullNameOf (row : Row) : String :=
  let first_name := (rowGet row "Imię" "").pyStrip
  let last_name := (rowGet row "Nazwisko" "").pyStrip
  let email := (rowGet row "Email" "").pyStrip
  let fl := (first_name ++ " " ++ last_name).pyStrip
  if fl = "" then (if email = "" then "Klient" else email) else fl

/-- Line 123: `row.get("Adres", "Nieznany").strip() or "Nieznane"`. -/
def miejsceOf (row : Row) : String :=
  let a := (rowGet row "Adres" "Nieznany").pyStrip
  if a = "" then "Nieznane" else a

/-- One iteration of the row loop: the `try` body at lines 64–139.  The
nested matches mirror the points where a `ValueError` can escape, in
source order (total, unit price, VAT rate, quantity, then the date). -/
def convertRow (row : Row) : Except ConvErr (List (String × Value)) :=
  let order_code := (rowGet row "Kod zamówienia" "").pyStrip
  let date_order := (rowGet row "Data zamówienia" "").pyStrip
  let time_order := (rowGet row "Godzina zamówienia" "").pyStrip
  let email := (rowGet row "Email" "").pyStrip
  let phone := (rowGet row "Numer telefonu" "").pyStrip
  match float_from_str ((rowGet row "Suma zamówienia" "0,00").pyStrip) with
  | .error e => .error e
  | .ok total =>
  match float_from_str (priceFieldOf row) with
  | .error e => .error e
  | .ok product_price =>
  match float_from_str ((rowGet row "Wartość podatku 0.00 %" "0,00").pyStrip) with
  | .error e => .error e
  | .ok tax_rate =>
  match float_from_str ((rowGet row "Pozycje" "1").pyStrip) with
  | .error e => .error e
  | .ok quantity =>
  match convert_date date_order time_order with
  | .error e => .error e
  | .ok (invoice_date, order_dt) =>
  let payment_deadline :=
    isoDateOfTriple (addDays 7 (order_dt.year, order_dt.month, order_dt.day))
  let vat_type := if tax_rate = 0 then "ZW" else "PRC"
  .ok (mkInvoice total invoice_date (miejsceOf row) payment_deadline order_code
        (mkPosition tax_rate quantity product_price (productNameOf row) vat_type)
        (mkKontrahent (fullNameOf row) email phone
          ((rowGet row "Adres" "Nieznana").pyStrip)
          ((rowGet row "Kod pocztowy" "00-000").pyStrip)
          ((rowGet row "Kraj" "PL").pyStrip)
          ((rowGet row "Miasto" "Nieznane").pyStrip)))

/-- The row loop itself: a failed row is logged and skipped, a converted
invoice is appended. -/
def process_rows : List Row → List (List (String × Value))
  | [] => []
  | r :: rs =>
    match convertRow r with
    | .ok inv => inv :: process_rows rs
    | .error _ => process_rows rs

/-! ## Invoice uploader (`uploadToiFirma.py`)

Dict mutation helpers.  Assigning `d[k] = v` replaces the value in place
when the key exists and appends the entry otherwise; `d.pop(k, None)`
deletes the entry. -/

def setKey (k : String) (v : Value) : List (String × Value) → List (String × Value)
  | [] => [(k, v)]
  | (k0, v0) :: rest =>
    if k0 = k then (k0, v) :: rest else (k0, v0) :: setKey k v rest

def eraseKey (k : String) : List (String × Value) → List (String × Value)
  | [] => []
  | (k0, v0) :: rest =>
    if k0 = k then rest else (k0, v0) :: eraseKey k rest

/-- `pos.get("TypStawkiVat") == "ZW"`. -/
def isZW (pos : List (String × Value)) : Bool :=
  match pos.lookup "TypStawkiVat" with
  | some (.str s) => s == "ZW"
  | _ => false

def posKeysOrder : List String :=
  ["StawkaVat", "Ilosc", "CenaJednostkowa", "NazwaPelna", "Jednostka",
   "TypStawkiVat"]

/-- `order_position` (uploadToiFirma.py lines 56–64): walk the six-key
whitelist; for `StawkaVat` on a `ZW` item emit `None` (whether or not the
key was present), otherwise copy the key when present. -/
def orderPosition (pos : List (String × Value)) : List (String × Value) :=
  posKeysOrder.filterMap (fun k =>
    if k = "StawkaVat" && isZW pos then some (k, Value.null)
    else match pos.lookup k with
         | some v => some (k, v)
         | none => none)

def contrKeysOrder : List String :=
  ["Nazwa", "Email", "Telefon", "Ulica", "KodPocztowy", "Kraj",
   "Miejscowosc", "OsobaFizyczna"]

/-- `order_contrahent` (lines 66–72). -/
def orderContrahent (contr : List (String × Value)) : List (String × Value) :=
  contrKeysOrder.filterMap (fun k => (contr.lookup k).map (fun v => (k, v)))

def invoiceKeysOrder : List String :=
  ["Zaplacono", "LiczOd", "NumerKontaBankowego", "DataWystawienia",
   "MiejsceWystawienia", "DataSprzedazy", "FormatDatySprzedazy",
   "TerminPlatnosci", "SposobZaplaty", "NazwaSeriiNumeracji",
   "NazwaSzablonu", "RodzajPodpisuOdbiorcy", "PodpisOdbiorcy",
   "PodpisWystawcy", "Uwagi", "WidocznyNumerGios", "Numer", "Pozycje",
   "Kontrahent"]

/-- `order_position` applied to one element of the `Pozycje` list; a
non-dict element makes `pos.get` raise, modelled by `none`. -/
def orderPositionV : Value → Option Value
  | .obj kvs => some (.obj (orderPosition kvs))
  | _ => none

def mapOrderPositions : List Value → Option (List Value)
  | [] => some []
  | x :: xs =>
    match orderPositionV x with
    | none => none
    | some y => (mapOrderPositions xs).map (fun ys => y :: ys)

/-- The body of the loop over `keys_order` (lines 102–110): `Pozycje`
lists get each element ordered (a non-dict element raises), a
`Kontrahent` dict gets its keys ordered, everything else is copied. -/
def entryTransform (k : String) (v : Value) : Option Value :=
  if k = "Pozycje" then
    match v with
    | .arr xs => (mapOrderPositions xs).map Value.arr
    | _ => some v
  else if k = "Kontrahent" then
    match v with
    | .obj c => some (.obj (orderContrahent c))
    | _ => some v
  else some v

/-- The loop over `keys_order` at lines 99–110, with `inv` the (already
`Numer`-patched) invoice dict. -/
def buildEntries (inv : List (String × Value)) :
    List String → Option (List (String × Value))
  | [] => some []
  | k :: ks =>
    match inv.lookup k with
    | none => buildEntries inv ks
    | some v =>
      match entryTransform k v with
      | none => none
      | some v2 => (buildEntries inv ks).map (fun rest => (k, v2) :: rest)

/-- `build_ordered_invoice` (lines 74–111): first set `invoice["Numer"] =
None` when the key is absent, then emit the whitelisted keys in order. -/
def buildOrderedInvoice (inv0 : List (String × Value)) :
    Option (List (String × Value)) :=
  let inv :=
    match inv0.lookup "Numer" with
    | none => inv0 ++ [("Numer", Value.null)]
    | some _ => inv0
  buildEntries inv invoiceKeysOrder

/-- Contiguous-substring test on character lists. -/
def containsSub (pat : List Char) : List Char → Bool
  | [] => pat.isEmpty
  | c :: rest => pat.isPrefixOf (c :: rest) || containsSub pat rest

/-- Python's `pat in s` substring test. -/
def strContains (s pat : String) : Bool := containsSub pat.data s.data

/-- `phone.replace("'", "")`: drop every apostrophe (code point 39). -/
def stripApostrophes (s : String) : String :=
  ⟨s.data.filter (fun c => c.toNat ≠ 39)⟩

/-- `invoice.get("NumerKontaBankowego") is None`: true when the key is
absent or its value is `None`. -/
def bankAccountMissing (inv : List (String × Value)) : Bool :=
  match inv.lookup "NumerKontaBankowego" with
  | none => true
  | some .null => true
  | some _ => false

/-- The phone-sanitizing step at lines 119–123.  `none` models the
`TypeError`/`AttributeError` Python raises when `Kontrahent` or `Telefon`
holds a value of the wrong shape ( `"Telefon" in kontrahent` is a
substring test on a string and an element test on a list, and item
assignment then fails on both). -/
def cleanPhone (inv : List (String × Value)) :
    Option (List (String × Value)) :=
  match inv.lookup "Kontrahent" with
  | none => some inv
  | some (.obj c) =>
    match c.lookup "Telefon" with
    | none => some inv
    | some (.str t) =>
      some (setKey "Kontrahent"
        (.obj (setKey "Telefon" (.str (stripApostrophes t).pyStrip) c)) inv)
    | some _ => none
  | some (.str s) => if strContains s "Telefon" then none else some inv
  | some (.arr xs) =>
    if xs.any (fun x => match x with | .str s => s == "Telefon" | _ => false)
    then none else some inv
  | some _ => none

/-- The normalization pipeline of `upload_invoice` (lines 113–132), up to
and including `build_ordered_invoice`; `today` / `deadline` stand for the
two strings `get_dates()` returns at send time. -/
def uploadNormalize (today deadline : String)
    (invoice : List (String × Value)) : Option (List (String × Value)) := do
  let inv1 := eraseKey "Status" invoice
  let inv2 :=
    if bankAccountMissing inv1 then
      setKey "NumerKontaBankowego" (.str "BRAK") inv1
    else inv1
  let inv3 ← cleanPhone inv2
  let inv4 :=
    setKey "TerminPlatnosci" (.str deadline)
      (setKey "DataSprzedazy" (.str today)
        (setKey "DataWystawienia" (.str today) inv3))
  let inv5 := removeNoneEntries inv4
  buildOrderedInvoice inv5

/-! ## Serialization

`json.dumps(…, separators=(",", ":"), ensure_ascii=False)`: compact
separators, non-ASCII characters emitted literally, `"` `\` and control
characters escaped.  Numbers are rendered as Python's `repr` renders the
floats arising here: exact short decimals, with a trailing `.0` on
integral values. -/

def hexDigitChar (d : Nat) : Char :=
  if d < 10 then digitChar d else Char.ofNat (87 + d)

def escapeChar (c : Char) : List Char :=
  if c = '"' then ['\\', '"']
  else if c = '\\' then ['\\', '\\']
  else if c = '\n' then ['\\', 'n']
  else if c = '\t' then ['\\', 't']
  else if c = '\r' then ['\\', 'r']
  else if c.toNat = 8 then ['\\', 'b']
  else if c.toNat = 12 then ['\\', 'f']
  else if c.toNat < 32 then
    ['\\', 'u', '0', '0', hexDigitChar (c.toNat / 16), hexDigitChar (c.toNat % 16)]
  else [c]

def escapeString (s : String) : String :=
  ⟨'"' :: (s.data.flatMap escapeChar) ++ ['"']⟩

/-- Least `k` with `d ∣ 10 ^ k` (exists for every denominator arising
from decimal input). -/
def pow10Exp (d : Nat) : Option Nat :=
  (List.range 40).find? (fun k => decide (d ∣ 10 ^ k))

def padLeftZeros (s : String) (k : Nat) : String :=
  ⟨List.replicate (k - s.length) '0' ++ s.data⟩

def renderNum (q : Rat) : String :=
  match pow10Exp q.den with
  | some k =>
    if k = 0 then
      (if q.num < 0 then "-" else "") ++ toString q.num.natAbs ++ ".0"
    else
      let scaled := q.num.natAbs * (10 ^ k / q.den)
      (if q.num < 0 then "-" else "") ++ toString (scaled / 10 ^ k) ++ "." ++
        padLeftZeros (toString (scaled % 10 ^ k)) k
  | none => toString q

mutual

def serializeValue : Value → String
  | .null => "null"
  | .bool b => if b then "true" else "false"
  | .num q => renderNum q
  | .str s => escapeString s
  | .arr xs => "[" ++ serializeList xs ++ "]"
  | .obj kvs => "\x7b" ++ serializeEntries kvs ++ "\x7d"

def serializeList : List Value → String
  | [] => ""
  | [x] => serializeValue x
  | x :: y :: xs => serializeValue x ++ "," ++ serializeList (y :: xs)

def serializeEntries : List (String × Value) → String
  | [] => ""
  | [(k, v)] => escapeString k ++ ":" ++ serializeValue v
  | (k, v) :: e :: rest =>
    escapeString k ++ ":" ++ serializeValue v ++ "," ++ serializeEntries (e :: rest)

end

/-- `str.rstrip()`. -/
def rstrip (s : String) : String :=
  ⟨(s.data.reverse.dropWhile Char.isWhitespace).reverse⟩

/-- `request_content` of `upload_invoice` (lines 134–138, `ADD_NEWLINE`
is `False`): the normalized ordered invoice, dumped and right-stripped. -/
def uploadBody (today deadline : String) (invoice : List (String × Value)) :
    Option String :=
  (uploadNormalize today deadline invoice).map
    (fun ord => rstrip (serializeValue (.obj ord)))

/-! ## Signing and the POST request

`hashlib.sha1` is external library code, taken as an abstract digest
parameter `H`; the `hmac` module's own construction (RFC 2104, block size
64 for SHA-1) is embedded. -/

/-- UTF-8 encoding of one code point. -/
def utf8Bytes (c : Char) : List Nat :=
  let n := c.toNat
  if n < 128 then [n]
  else if n < 2048 then [192 + n / 64, 128 + n % 64]
  else if n < 65536 then [224 + n / 4096, 128 + n / 64 % 64, 128 + n % 64]
  else [240 + n / 262144, 128 + n / 4096 % 64, 128 + n / 64 % 64, 128 + n % 64]

/-- UTF-8 bytes of a string (`str.encode("utf-8")`). -/
def strBytes (s : String) : List Nat := s.data.flatMap utf8Bytes

def hexVal? (c : Char) : Option Nat :=
  if c.isDigit then some (c.toNat - 48)
  else if 97 ≤ c.toNat ∧ c.toNat ≤ 102 then some (c.toNat - 87)
  else if 65 ≤ c.toNat ∧ c.toNat ≤ 70 then some (c.toNat - 55)
  else none

/-- `bytes.fromhex`: pairs of hex digits, ASCII spaces allowed between
bytes. -/
def hexDecodeChars : List Char → Option (List Nat)
  | [] => some []
  | ' ' :: rest => hexDecodeChars rest
  | c1 :: c2 :: rest =>
    match hexVal? c1, hexVal? c2, hexDecodeChars rest with
    | some h, some l, some t => some ((16 * h + l) :: t)
    | _, _, _ => none
  | [_] => none

def hexDecode? (s : String) : Option (List Nat) := hexDecodeChars s.data

/-- `hmac.new(key, msg, H).digest()`: the RFC 2104 construction the
`hmac` module implements, over an abstract hash `H`. -/
def hmacDigest (H : List Nat → List Nat) (blocksize : Nat)
    (key msg : List Nat) : List Nat :=
  let k1 := if blocksize < key.length then H key else key
  let k0 := k1 ++ List.replicate (blocksize - k1.length) 0
  H ((k0.map (fun b => b ^^^ 92)) ++ H ((k0.map (fun b => b ^^^ 54)) ++ msg))

/-- Lowercase hex rendering of a digest (`hexdigest()`). -/
def toHexLower (bs : List Nat) : String :=
  ⟨bs.flatMap (fun b => [hexDigitChar (b / 16 % 16), hexDigitChar (b % 16)])⟩

/-- `compute_hmac` (uploadToiFirma.py lines 44–46). -/
def compute_hmac (H : List Nat → List Nat) (message : String)
    (keyBytes : List Nat) : String × String :=
  let d := toHexLower (hmacDigest H 64 keyBytes (strBytes message))
  (d, d.toUpper)

structure HttpRequest where
  postBody : List Nat
  authHeader : String
  contentTypeHdr : String
  acceptHdr : String
  signedMessage : String
deriving Repr

/-- The request `upload_invoice` (lines 134–168) issues, given the
configured URL, username, key name and hex API key, with the abstract
SHA-1 `H`. -/
def upload_request (H : List Nat → List Nat)
    (url username keyName apiKeyHex today deadline : String)
    (invoice : List (String × Value)) : Option HttpRequest := do
  let body ← uploadBody today deadline invoice
  let message := url ++ username ++ keyName ++ body
  let keyBytes ← hexDecode? apiKeyHex
  let hashes := compute_hmac H message keyBytes
  some ⟨strBytes body,
        "IAPIS user=" ++ username ++ ", hmac-sha1=" ++ hashes.1,
        "application/json; charset=UTF-8",
        "application/json",
        message⟩

/-- A lowercase-hex digest string: only `0`–`9` and `a`–`f`. -/
def isLowerHex (s : String) : Bool :=
  s.data.all (fun c => c.isDigit || (97 ≤ c.toNat && c.toNat ≤ 102))

/-! ## Concrete sample data (used by witnesses and counterexamples) -/

/-- A well-formed exempt-VAT (`0,00`) order row. -/
def exRowZW : Row :=
  [("Kod zamówienia", "ORD1"), ("Data zamówienia", "2025-03-23"),
   ("Godzina zamówienia", "12:36:11"), ("Suma zamówienia", "100,00"),
   ("Wartość podatku 0.00 %", "0,00"), ("Nazwa wydarzenia", "Koncert")]

/-- `exRowZW` with a present-but-empty address column. -/
def exRowBlankAddr : Row := exRowZW ++ [("Adres", "")]

/-- A row no field of which parses as a date (`Data zamówienia` absent). -/
def exRowBad : Row := []

/-- A well-formed standard-rate (`23,00`) order row. -/
def exRowPRC : Row :=
  [("Data zamówienia", "2025-03-23"), ("Godzina zamówienia", "12:36:11"),
   ("Suma zamówienia", "123,00"), ("Wartość podatku 0.00 %", "23,00")]

/-- The invoice `convertRow` produces from `exRowZW`. -/
def exInvoiceZW : List (String × Value) :=
  mkInvoice 100 "2025-03-23" "Nieznany" "2025-03-30" "ORD1"
    (mkPosition 0 1 100 "Wejście na wydarzenie Koncert" "ZW")
    (mkKontrahent "Klient" "" "" "Nieznana" "00-000" "PL" "Nieznane")

/-- The invoice `convertRow` produces from the minimal valid row. -/
def exRowMin : Row :=
  [("Data zamówienia", "2025-03-23"), ("Godzina zamówienia", "12:36:11")]

def exInvoiceMin : List (String × Value) :=
  mkInvoice 0 "2025-03-23" "Nieznany" "2025-03-30" ""
    (mkPosition 0 1 0 "Wejście na wydarzenie Wydarzenie" "ZW")
    (mkKontrahent "Klient" "" "" "Nieznana" "00-000" "PL" "Nieznane")

/-- Counterparty dict of a conversion result (empty on failure). -/
def kontrahentOfResult (r : Except ConvErr (List (String × Value))) :
    List (String × Value) :=
  match r with
  | .ok inv =>
    match inv.lookup "Kontrahent" with
    | some (.obj c) => c
    | _ => []
  | .error _ => []

/-- A stand-in digest function for concrete witnesses. -/
def exHash (l : List Nat) : List Nat := [l.length % 256, 7]

def exReqDefault : HttpRequest := ⟨[], "", "", "", ""⟩

def exUploadRequest : HttpRequest :=
  (upload_request exHash "https://e/" "user" "faktura" "0aff" "2025-10-12"
    "2025-10-19" exInvoiceZW).getD exReqDefault

def exUploadBodyZW : String :=
  (uploadBody "2025-10-12" "2025-10-19" exInvoiceZW).getD ""

/-! # Theorems -/

theorem isNull_removeNoneValues (v : Value) :
    (removeNoneValues v).isNull = v.isNull := by
  cases v <;> rfl

mutual

theorem removeNoneValues_idem : (v : Value) →
    removeNoneValues (removeNoneValues v) = removeNoneValues v
  | .null => rfl
  | .bool _ => rfl
  | .num _ => rfl
  | .str _ => rfl
  | .arr _ => rfl
  | .obj kvs => by
    simp only [removeNoneValues]
    rw [removeNoneEntries_idem kvs]

theorem removeNoneEntries_idem : (kvs : List (String × Value)) →
    removeNoneEntries (removeNoneEntries kvs) = removeNoneEntries kvs
  | [] => rfl
  | (k, v) :: rest => by
    by_cases h : v.isNull = true
    · simp only [removeNoneEntries, h, if_pos]
      exact removeNoneEntries_idem rest
    · simp only [removeNoneEntries, h, if_neg, Bool.not_eq_true]
      rw [if_neg, removeNoneValues_idem v, removeNoneEntries_idem rest]
      rw [isNull_removeNoneValues]
      simp [h]

end

theorem removeNoneValues_of_not_obj (v : Value) (h : v.isObj = false) :
    removeNoneValues v = v := by
  cases v <;> first | rfl | simp [Value.isObj] at h

/-- Claim C7: the recursive null-removal transform is idempotent: for every
input structure, applying `remove_none_values` twice yields the same
structure as applying it once. -/
theorem C7_removeNone_idempotent (v : Value) :
    removeNoneValues (removeNoneValues v) = removeNoneValues v :=
  removeNoneValues_idem v

/-- Claim C9: `remove_none_values` changes only dict entries: any non-dict
value (including every list, such as the invoice's line-item list) is
returned unchanged, so null-valued keys inside dicts contained in lists
are not removed by it. -/
theorem C9_removeNone_frame :
    (∀ v : Value, v.isObj = false → removeNoneValues v = v) ∧
    removeNoneValues (.arr [.obj [("k", .null)]]) =
      .arr [.obj [("k", .null)]] :=
  ⟨removeNoneValues_of_not_obj, rfl⟩

theorem C9_removeNone_frame_witness :
    Value.isObj (.arr [.obj [("k", .null)]]) = false ∧
    removeNoneValues (.arr [.obj [("k", .null)]]) =
      .arr [.obj [("k", .null)]] :=
  ⟨rfl, C9_removeNone_frame.1 (.arr [.obj [("k", .null)]]) rfl⟩

/-! ### C5: per-row failure isolation and order preservation -/

theorem process_rows_append (xs ys : List Row) :
    process_rows (xs ++ ys) = process_rows xs ++ process_rows ys := by
  induction xs with
  | nil => rfl
  | cons r rs ih =>
    cases h : convertRow r <;> simp [process_rows, h, ih]

/-- Claim C5: a row whose conversion fails is absent from the output while all
other rows are still converted, the produced invoice sequence preserves
the input row order, and no partially built invoice is appended for a
failed row. -/
theorem C5_row_isolation (xs ys : List Row) (r : Row) :
    (∀ e, convertRow r = .error e →
        process_rows (xs ++ r :: ys) = process_rows xs ++ process_rows ys) ∧
    (∀ inv, convertRow r = .ok inv →
        process_rows (xs ++ r :: ys) =
          process_rows xs ++ inv :: process_rows ys) := by
  constructor
  · intro e he
    rw [process_rows_append]
    simp [process_rows, he]
  · intro inv hi
    rw [process_rows_append]
    simp [process_rows, hi]

theorem C5_row_isolation_witness :
    process_rows [exRowZW, exRowBad, exRowMin] = [exInvoiceZW, exInvoiceMin] := by
  have h := (C5_row_isolation [exRowZW] [exRowMin] exRowBad).1
    (.malformedDate "" "") rfl
  exact h.trans rfl

/-! ### C6: decimal-comma number parsing -/

theorem replaceChar_of_not_mem (c : Char) (rep : List Char) :
    ∀ l : List Char, c ∉ l → replaceChar c rep l = l := by
  intro l h
  induction l with
  | nil => rfl
  | cons x xs ih =>
    simp only [List.mem_cons, not_or] at h
    rw [replaceChar, if_neg (fun hx => h.1 hx.symm), ih h.2]

theorem replaceChar_append (c : Char) (rep l1 l2 : List Char) :
    replaceChar c rep (l1 ++ l2) =
      replaceChar c rep l1 ++ replaceChar c rep l2 := by
  induction l1 with
  | nil => rfl
  | cons x xs ih =>
    by_cases hx : x = c <;> simp [replaceChar, hx, ih, List.append_assoc]

theorem not_mem_of_allDigits {l : List Char} (h : allDigits l = true)
    {c : Char} (hc : c.isDigit = false) : c ∉ l := by
  intro hmem
  have := List.all_eq_true.mp h c hmem
  rw [this] at hc
  exact Bool.true_eq_false.mp hc

theorem takeWhile_middle (p : Char → Bool) (l1 : List Char) (x : Char)
    (l2 : List Char) (h1 : ∀ a ∈ l1, p a = true) (hx : p x = false) :
    (l1 ++ x :: l2).takeWhile p = l1 ∧
    (l1 ++ x :: l2).dropWhile p = x :: l2 := by
  induction l1 with
  | nil => simp [List.takeWhile_cons, List.dropWhile_cons, hx]
  | cons a as ih =>
    have ha : p a = true := h1 a (by simp)
    have hrest := ih (fun b hb => h1 b (by simp [hb]))
    simp [List.takeWhile_cons, List.dropWhile_cons, ha, hrest.1, hrest.2]

theorem parseUnsigned_frac (a b : List Char) (ha : allDigits a = true)
    (hb : allDigits b = true) (hne : a ++ b ≠ []) :
    parseUnsigned (a ++ '.' :: b) =
      some (mkRat (digitsVal (a ++ b)) (10 ^ b.length)) := by
  have h1 : ∀ c ∈ a, (!(c == '.')) = true := by
    intro c hc
    have hd := List.all_eq_true.mp ha c hc
    by_cases h : c = '.'
    · subst h
      exact absurd hd (by decide)
    · simp [h]
  have hx : (!(('.' : Char) == '.')) = false := by decide
  obtain ⟨ht, hd⟩ := takeWhile_middle _ a '.' b h1 hx
  have hor : ¬a = [] ∨ ¬b = [] := by
    rcases a with _ | ⟨x, xs⟩
    · rcases b with _ | ⟨y, ys⟩
      · exact absurd rfl hne
      · right; simp
    · left; simp
  simp only [parseUnsigned, List.span_eq_take_drop, ht, hd]
  simp [ha, hb, hor]

theorem parseDecimal_not_sign (l : List Char)
    (h : ∀ c l2, l = c :: l2 → c ≠ '+' ∧ c ≠ '-') :
    parseDecimal l = parseUnsigned l := by
  cases l with
  | nil => rfl
  | cons c rest =>
    obtain ⟨h1, h2⟩ := h c rest rfl
    unfold parseDecimal
    split
    · next heq => exact absurd (List.head_eq_of_cons_eq heq) h1
    · next heq => exact absurd (List.head_eq_of_cons_eq heq) h2
    · rfl

theorem digitsVal_go (b : List Char) :
    ∀ init : Nat, b.foldl (fun a c => 10 * a + (c.toNat - 48)) init =
      init * 10 ^ b.length + digitsVal b := by
  induction b with
  | nil => intro init; simp [digitsVal]
  | cons c cs ih =>
    intro init
    have hdc : digitsVal (c :: cs) =
        (c.toNat - 48) * 10 ^ cs.length + digitsVal cs := by
      unfold digitsVal
      rw [List.foldl_cons, ih]
      ring_nf
      rfl
    rw [List.foldl_cons, ih, hdc, List.length_cons, pow_succ]
    ring

theorem digitsVal_append (a b : List Char) :
    digitsVal (a ++ b) = digitsVal a * 10 ^ b.length + digitsVal b := by
  unfold digitsVal
  rw [List.foldl_append, digitsVal_go]
  rfl

/-- Claim C6: a decimal-comma string such as `"12,50"` parses to the equivalent
point-decimal value, the empty string parses to `0.0`, and non-numeric
content raises a malformed-number error. -/
theorem C6_float_from_str :
    (∀ a b : List Char, allDigits a = true → allDigits b = true →
        a ++ b ≠ [] →
        float_from_str ⟨a ++ [','] ++ b⟩ =
          .ok (mkRat (digitsVal (a ++ b)) (10 ^ b.length)) ∧
        (mkRat (digitsVal (a ++ b)) (10 ^ b.length) : Rat) =
          (digitsVal a : Rat) + (digitsVal b : Rat) / 10 ^ b.length) ∧
    float_from_str "" = .ok 0 ∧
    float_from_str "abc" = .error (.malformedNumber "abc") := by
  refine ⟨?_, rfl, rfl⟩
  intro a b ha hb hne
  have hcomma_a : (',' : Char) ∉ a := not_mem_of_allDigits ha (by decide)
  have hcomma_b : (',' : Char) ∉ b := not_mem_of_allDigits hb (by decide)
  have hrepl : replaceChar ',' ['.'] (a ++ [','] ++ b) = a ++ '.' :: b := by
    rw [replaceChar_append, replaceChar_append,
        replaceChar_of_not_mem _ _ a hcomma_a,
        replaceChar_of_not_mem _ _ b hcomma_b]
    simp [replaceChar, List.append_assoc]
  have hsign : ∀ c l2, a ++ '.' :: b = c :: l2 → c ≠ '+' ∧ c ≠ '-' := by
    intro c l2 heq
    rcases a with _ | ⟨x, xs⟩
    · have : c = '.' := (List.head_eq_of_cons_eq heq.symm)
      subst this
      exact ⟨by decide, by decide⟩
    · have hx : c = x := (List.head_eq_of_cons_eq heq.symm)
      subst hx
      have hd := List.all_eq_true.mp ha c (by simp)
      constructor
      · intro hc; subst hc; exact absurd hd (by decide)
      · intro hc; subst hc; exact absurd hd (by decide)
  have hstr : (⟨a ++ [','] ++ b⟩ : String) ≠ "" := by
    intro hh
    have : a ++ [','] ++ b = [] := congrArg String.data hh
    rcases a with _ | ⟨x, xs⟩ <;> simp at this
  constructor
  · unfold float_from_str
    rw [if_neg hstr]
    have : replaceChar ',' ['.'] (String.data ⟨a ++ [','] ++ b⟩) =
        a ++ '.' :: b := hrepl
    rw [this, parseDecimal_not_sign _ hsign, parseUnsigned_frac a b ha hb hne]
  · rw [Rat.mkRat_eq_div, digitsVal_append]
    push_cast
    have h10 : ((10 : Rat) ^ b.length) ≠ 0 := by positivity
    field_simp

theorem C6_float_from_str_witness :
    allDigits ['1', '2'] = true ∧
    float_from_str "12,50" = .ok (mkRat 1250 100) ∧
    (mkRat 1250 100 : Rat) = 25 / 2 := by
  obtain ⟨hf, hv⟩ :=
    C6_float_from_str.1 ['1', '2'] ['5', '0'] (by decide) (by decide)
      (by decide)
  refine ⟨by decide, hf, ?_⟩
  rw [Rat.mkRat_eq_div]
  norm_num

/-! ### The shape of a successful row conversion -/

theorem convertRow_ok_shape {row : Row} {inv : List (String × Value)}
    (h : convertRow row = .ok inv) :
    ∃ (total price t q : Rat) (dstr : String) (dt : DateT),
      float_from_str ((rowGet row "Suma zamówienia" "0,00").pyStrip) =
        .ok total ∧
      float_from_str (priceFieldOf row) = .ok price ∧
      float_from_str ((rowGet row "Wartość podatku 0.00 %" "0,00").pyStrip) =
        .ok t ∧
      float_from_str ((rowGet row "Pozycje" "1").pyStrip) = .ok q ∧
      convert_date ((rowGet row "Data zamówienia" "").pyStrip)
          ((rowGet row "Godzina zamówienia" "").pyStrip) = .ok (dstr, dt) ∧
      inv = mkInvoice total dstr (miejsceOf row)
              (isoDateOfTriple (addDays 7 (dt.year, dt.month, dt.day)))
              ((rowGet row "Kod zamówienia" "").pyStrip)
              (mkPosition t q price (productNameOf row)
                (if t = 0 then "ZW" else "PRC"))
              (mkKontrahent (fullNameOf row)
                ((rowGet row "Email" "").pyStrip)
                ((rowGet row "Numer telefonu" "").pyStrip)
                ((rowGet row "Adres" "Nieznana").pyStrip)
                ((rowGet row "Kod pocztowy" "00-000").pyStrip)
                ((rowGet row "Kraj" "PL").pyStrip)
                ((rowGet row "Miasto" "Nieznane").pyStrip)) := by
  simp only [convertRow] at h
  cases hTot : float_from_str ((rowGet row "Suma zamówienia" "0,00").pyStrip) with
  | error e => rw [hTot] at h; simp at h
  | ok total =>
  rw [hTot] at h
  cases hPrice : float_from_str (priceFieldOf row) with
  | error e => rw [hPrice] at h; simp at h
  | ok price =>
  rw [hPrice] at h
  cases hT : float_from_str ((rowGet row "Wartość podatku 0.00 %" "0,00").pyStrip) with
  | error e => rw [hT] at h; simp at h
  | ok t =>
  rw [hT] at h
  cases hQ : float_from_str ((rowGet row "Pozycje" "1").pyStrip) with
  | error e => rw [hQ] at h; simp at h
  | ok q =>
  rw [hQ] at h
  cases hDate : convert_date ((rowGet row "Data zamówienia" "").pyStrip)
      ((rowGet row "Godzina zamówienia" "").pyStrip) with
  | error e => rw [hDate] at h; simp at h
  | ok p =>
  obtain ⟨dstr, dt⟩ := p
  rw [hDate] at h
  simp only [Except.ok.injEq] at h
  exact ⟨total, price, t, q, dstr, dt, rfl, rfl, rfl, rfl, rfl, h.symm⟩

/-! ### C3: VAT-type classification and its normalization -/

/-- Claim C3: a parsed VAT rate of exactly 0.0 yields VAT-type `"ZW"` and a
nulled rate field after `order_position`; a nonzero rate yields `"PRC"`
with the rate preserved unchanged. -/
theorem C3_vat_type (row : Row) (inv : List (String × Value)) (t : Rat)
    (hok : convertRow row = .ok inv)
    (ht : float_from_str
        ((rowGet row "Wartość podatku 0.00 %" "0,00").pyStrip) = .ok t) :
    ∃ pos : List (String × Value),
      inv.lookup "Pozycje" = some (.arr [.obj pos]) ∧
      (t = 0 → pos.lookup "TypStawkiVat" = some (.str "ZW") ∧
        (orderPosition pos).lookup "StawkaVat" = some .null) ∧
      (t ≠ 0 → pos.lookup "TypStawkiVat" = some (.str "PRC") ∧
        (orderPosition pos).lookup "StawkaVat" = some (.num t)) := by
  obtain ⟨total, price, t0, q, dstr, dt, _, _, h3, _, _, hinv⟩ :=
    convertRow_ok_shape hok
  have htt : t0 = t := by
    have := h3.symm.trans ht
    injection this
  subst htt
  subst hinv
  refine ⟨mkPosition t0 q price (productNameOf row)
    (if t0 = 0 then "ZW" else "PRC"), rfl, ?_, ?_⟩
  · intro h0
    rw [if_pos h0]
    exact ⟨rfl, rfl⟩
  · intro h0
    rw [if_neg h0]
    exact ⟨rfl, rfl⟩

theorem C3_vat_type_witness :
    (orderPosition
        (mkPosition 0 1 100 "Wejście na wydarzenie Koncert" "ZW")).lookup
      "StawkaVat" = some Value.null := by
  obtain ⟨pos, h1, hz, _⟩ := C3_vat_type exRowZW exInvoiceZW 0 rfl rfl
  have h2 : List.lookup "Pozycje" exInvoiceZW =
      some (.arr [.obj (mkPosition 0 1 100
        "Wejście na wydarzenie Koncert" "ZW")]) := rfl
  rw [h1] at h2
  simp only [Option.some.injEq, Value.arr.injEq, List.cons.injEq,
    Value.obj.injEq, and_true] at h2
  rw [← h2]
  exact (hz rfl).2

/-! ### C8: counterparty fallback defaults -/

theorem fullNameOf_ne_empty (row : Row) : fullNameOf row ≠ "" := by
  simp only [fullNameOf]
  split
  · split
    · simp
    · next hB => exact hB
  · next hA => exact hA

/-- Claim C8 (amended): the display name follows the first+last → email →
`"Klient"` fallback chain and is never blank, and the street, postal
code, country and city fields receive their documented defaults when the
corresponding CSV column is absent from the row.  (A present-but-empty
column reaches the invoice as a blank field, see the counterexample.) -/
theorem C8_counterparty_defaults (row : Row) (inv : List (String × Value))
    (h : convertRow row = .ok inv) :
    ∃ c : List (String × Value),
      inv.lookup "Kontrahent" = some (.obj c) ∧
      c.lookup "Nazwa" = some (.str (fullNameOf row)) ∧
      fullNameOf row ≠ "" ∧
      (row.lookup "Adres" = none →
        c.lookup "Ulica" = some (.str "Nieznana")) ∧
      (row.lookup "Kod pocztowy" = none →
        c.lookup "KodPocztowy" = some (.str "00-000")) ∧
      (row.lookup "Kraj" = none → c.lookup "Kraj" = some (.str "PL")) ∧
      (row.lookup "Miasto" = none →
        c.lookup "Miejscowosc" = some (.str "Nieznane")) := by
  obtain ⟨total, price, t, q, dstr, dt, _, _, _, _, _, hinv⟩ :=
    convertRow_ok_shape h
  subst hinv
  refine ⟨mkKontrahent (fullNameOf row)
      ((rowGet row "Email" "").pyStrip)
      ((rowGet row "Numer telefonu" "").pyStrip)
      ((rowGet row "Adres" "Nieznana").pyStrip)
      ((rowGet row "Kod pocztowy" "00-000").pyStrip)
      ((rowGet row "Kraj" "PL").pyStrip)
      ((rowGet row "Miasto" "Nieznane").pyStrip),
    rfl, rfl, fullNameOf_ne_empty row, ?_, ?_, ?_, ?_⟩
  · intro ha
    have hv : rowGet row "Adres" "Nieznana" = "Nieznana" := by
      rw [rowGet, ha]; rfl
    rw [hv]; rfl
  · intro ha
    have hv : rowGet row "Kod pocztowy" "00-000" = "00-000" := by
      rw [rowGet, ha]; rfl
    rw [hv]; rfl
  · intro ha
    have hv : rowGet row "Kraj" "PL" = "PL" := by
      rw [rowGet, ha]; rfl
    rw [hv]; rfl
  · intro ha
    have hv : rowGet row "Miasto" "Nieznane" = "Nieznane" := by
      rw [rowGet, ha]; rfl
    rw [hv]; rfl

theorem C8_counterparty_defaults_witness :
    (kontrahentOfResult (convertRow exRowZW)).lookup "Ulica" =
      some (.str "Nieznana") := by
  obtain ⟨c, hc, _, _, hU, _, _, _⟩ :=
    C8_counterparty_defaults exRowZW exInvoiceZW rfl
  have h2 : List.lookup "Kontrahent" exInvoiceZW =
      some (.obj (mkKontrahent "Klient" "" "" "Nieznana" "00-000" "PL"
        "Nieznane")) := rfl
  rw [hc] at h2
  simp only [Option.some.injEq, Value.obj.injEq] at h2
  have hred : kontrahentOfResult (convertRow exRowZW) =
      mkKontrahent "Klient" "" "" "Nieznana" "00-000" "PL" "Nieznane" := rfl
  rw [hred, ← h2]
  exact hU rfl

/-- Claim C8 is false as stated: a present-but-empty address column produces an
invoice whose counterparty street field is blank. -/
theorem C8_counterexample :
    (convertRow exRowBlankAddr).isOk = true ∧
    (kontrahentOfResult (convertRow exRowBlankAddr)).lookup "Ulica" =
      some (.str "") :=
  ⟨rfl, rfl⟩

/-! ### C10: key whitelists in `build_ordered_invoice` -/

theorem lookup_cons_self (k : String) (v0 : Value)
    (l : List (String × Value)) : List.lookup k ((k, v0) :: l) = some v0 := by
  simp [List.lookup]

theorem lookup_cons_ne {k k0 : String} (h : k ≠ k0) (v0 : Value)
    (l : List (String × Value)) :
    List.lookup k ((k0, v0) :: l) = List.lookup k l := by
  simp [List.lookup, beq_false_of_ne h]

theorem lookup_mem {k : String} {v : Value} :
    ∀ l : List (String × Value), l.lookup k = some v → (k, v) ∈ l := by
  intro l h
  induction l with
  | nil => simp [List.lookup] at h
  | cons p rest ih =>
    obtain ⟨k0, v0⟩ := p
    by_cases hk : k = k0
    · subst hk
      rw [lookup_cons_self, Option.some.injEq] at h
      simp [h]
    · rw [lookup_cons_ne hk] at h
      exact List.mem_cons_of_mem _ (ih h)

theorem lookup_append_left {k : String} {v : Value} :
    ∀ l1 l2 : List (String × Value),
      l1.lookup k = some v → (l1 ++ l2).lookup k = some v := by
  intro l1 l2 h
  induction l1 with
  | nil => simp [List.lookup] at h
  | cons p rest ih =>
    obtain ⟨k0, v0⟩ := p
    by_cases hk : k = k0
    · subst hk
      rw [lookup_cons_self] at h
      rw [List.cons_append, lookup_cons_self]
      exact h
    · rw [lookup_cons_ne hk] at h
      rw [List.cons_append, lookup_cons_ne hk]
      exact ih h

theorem lookup_append_right {k : String} :
    ∀ l1 l2 : List (String × Value),
      l1.lookup k = none → (l1 ++ l2).lookup k = l2.lookup k := by
  intro l1 l2 h
  induction l1 with
  | nil => rfl
  | cons p rest ih =>
    obtain ⟨k0, v0⟩ := p
    by_cases hk : k = k0
    · subst hk
      rw [lookup_cons_self] at h
      exact absurd h (by simp)
    · rw [lookup_cons_ne hk] at h
      rw [List.cons_append, lookup_cons_ne hk]
      exact ih h

theorem buildEntries_mem_keys (inv : List (String × Value)) :
    ∀ (ks : List String) (out : List (String × Value)),
      buildEntries inv ks = some out → ∀ k v, (k, v) ∈ out → k ∈ ks := by
  intro ks
  induction ks with
  | nil =>
    intro out h k v hm
    simp only [buildEntries, Option.some.injEq] at h
    subst h
    simp at hm
  | cons k0 ks ih =>
    intro out h k v hm
    cases hL : List.lookup k0 inv with
    | none =>
      simp only [buildEntries, hL] at h
      exact List.mem_cons_of_mem _ (ih out h k v hm)
    | some v0 =>
      simp only [buildEntries, hL] at h
      cases hE : entryTransform k0 v0 with
      | none => simp only [hE] at h; exact Option.noConfusion h
      | some v2 =>
        simp only [hE, Option.map_eq_some'] at h
        obtain ⟨rest, hrest, hout⟩ := h
        subst hout
        rcases List.mem_cons.mp hm with hh | hh
        · rw [Prod.mk.injEq] at hh
          simp [hh.1]
        · exact List.mem_cons_of_mem _ (ih rest hrest k v hh)

theorem buildEntries_lookup_plain (inv : List (String × Value)) (k : String)
    (hk1 : k ≠ "Pozycje") (hk2 : k ≠ "Kontrahent") :
    ∀ (ks : List String) (out : List (String × Value)),
      buildEntries inv ks = some out → k ∈ ks →
      ∀ v, inv.lookup k = some v → out.lookup k = some v := by
  intro ks
  induction ks with
  | nil => intro out _ hmem; simp at hmem
  | cons k0 ks ih =>
    intro out h hmem v hv
    by_cases hkk : k0 = k
    · subst hkk
      have hE : entryTransform k0 v = some v := by
        unfold entryTransform
        rw [if_neg hk1, if_neg hk2]
      simp only [buildEntries, hv, hE, Option.map_eq_some'] at h
      obtain ⟨rest, _, hout⟩ := h
      subst hout
      exact lookup_cons_self k0 v rest
    · have hmem2 : k ∈ ks := by
        rcases List.mem_cons.mp hmem with hh | hh
        · exact absurd hh.symm hkk
        · exact hh
      cases hL : List.lookup k0 inv with
      | none =>
        simp only [buildEntries, hL] at h
        exact ih out h hmem2 v hv
      | some v0 =>
        simp only [buildEntries, hL] at h
        cases hE : entryTransform k0 v0 with
        | none => simp only [hE] at h; exact Option.noConfusion h
        | some v2 =>
          simp only [hE, Option.map_eq_some'] at h
          obtain ⟨rest, hrest, hout⟩ := h
          subst hout
          rw [lookup_cons_ne (fun hh => hkk hh.symm)]
          exact ih rest hrest hmem2 v hv

theorem buildEntries_pozycje (inv : List (String × Value)) :
    ∀ (ks : List String) (out : List (String × Value)),
      buildEntries inv ks = some out → "Pozycje" ∈ ks →
      ∀ xs, inv.lookup "Pozycje" = some (.arr xs) →
        ∃ qs, mapOrderPositions xs = some qs ∧
          out.lookup "Pozycje" = some (.arr qs) := by
  intro ks
  induction ks with
  | nil => intro out _ hmem; simp at hmem
  | cons k0 ks ih =>
    intro out h hmem xs hv
    by_cases hkk : k0 = "Pozycje"
    · subst hkk
      have hE : entryTransform "Pozycje" (.arr xs) =
          (mapOrderPositions xs).map Value.arr := by
        unfold entryTransform
        rw [if_pos rfl]
      simp only [buildEntries, hv, hE] at h
      cases hM : mapOrderPositions xs with
      | none => simp only [hM, Option.map_none'] at h; exact Option.noConfusion h
      | some qs =>
        simp only [hM, Option.map_some', Option.map_eq_some'] at h
        obtain ⟨rest, _, hout⟩ := h
        subst hout
        exact ⟨qs, rfl, lookup_cons_self _ _ rest⟩
    · have hmem2 : "Pozycje" ∈ ks := by
        rcases List.mem_cons.mp hmem with hh | hh
        · exact absurd hh.symm hkk
        · exact hh
      cases hL : List.lookup k0 inv with
      | none =>
        simp only [buildEntries, hL] at h
        exact ih out h hmem2 xs hv
      | some v0 =>
        simp only [buildEntries, hL] at h
        cases hE : entryTransform k0 v0 with
        | none => simp only [hE] at h; exact Option.noConfusion h
        | some v2 =>
          simp only [hE, Option.map_eq_some'] at h
          obtain ⟨rest, hrest, hout⟩ := h
          subst hout
          obtain ⟨qs, hqs, hl⟩ := ih rest hrest hmem2 xs hv
          refine ⟨qs, hqs, ?_⟩
          rw [lookup_cons_ne (fun hh => hkk hh.symm)]
          exact hl

theorem orderPosition_keys (pos : List (String × Value)) :
    ∀ k v, (k, v) ∈ orderPosition pos → k ∈ posKeysOrder := by
  intro k v hm
  unfold orderPosition at hm
  rw [List.mem_filterMap] at hm
  obtain ⟨a, ha, hf⟩ := hm
  split at hf
  · rw [Option.some.injEq, Prod.mk.injEq] at hf
    rw [← hf.1]
    exact ha
  · cases hL : List.lookup a pos with
    | none => rw [hL] at hf; simp at hf
    | some w =>
      rw [hL] at hf
      rw [Option.some.injEq, Prod.mk.injEq] at hf
      rw [← hf.1]
      exact ha

theorem mapOrderPositions_shape :
    ∀ xs qs, mapOrderPositions xs = some qs →
      ∀ q ∈ qs, ∃ p, q = .obj (orderPosition p) := by
  intro xs
  induction xs with
  | nil =>
    intro qs h q hq
    simp only [mapOrderPositions, Option.some.injEq] at h
    subst h
    simp at hq
  | cons x xs ih =>
    intro qs h q hq
    rw [mapOrderPositions] at h
    cases hO : orderPositionV x with
    | none => rw [hO] at h; simp at h
    | some y =>
      rw [hO, Option.map_eq_some'] at h
      obtain ⟨ys, hys, hout⟩ := h
      subst hout
      rcases List.mem_cons.mp hq with hh | hh
      · subst hh
        cases x with
        | obj kvs =>
          refine ⟨kvs, ?_⟩
          have : orderPositionV (.obj kvs) = some (.obj (orderPosition kvs)) :=
            rfl
          rw [this] at hO
          exact (Option.some.inj hO).symm
        | null => simp [orderPositionV] at hO
        | bool b => simp [orderPositionV] at hO
        | num n => simp [orderPositionV] at hO
        | str s => simp [orderPositionV] at hO
        | arr l => simp [orderPositionV] at hO
      · exact ih ys hys q hh

/-- Claim C10: `build_ordered_invoice` restricts the serialized top-level keys
to the fixed 19-key whitelist (any other key is silently dropped),
line-item keys to the fixed 6-key whitelist, and inserts a null `Numer`
whenever the invoice lacks one, so every serialized invoice contains a
`Numer` key. -/
theorem C10_build_ordered_whitelists (inv0 out : List (String × Value))
    (h : buildOrderedInvoice inv0 = some out) :
    invoiceKeysOrder.length = 19 ∧
    posKeysOrder.length = 6 ∧
    (∀ k v, (k, v) ∈ out → k ∈ invoiceKeysOrder) ∧
    (∀ k, k ∉ invoiceKeysOrder → out.lookup k = none) ∧
    out.lookup "Numer" = some ((inv0.lookup "Numer").getD .null) ∧
    (∀ xs, inv0.lookup "Pozycje" = some (.arr xs) →
      ∃ qs, out.lookup "Pozycje" = some (.arr qs) ∧
        ∀ q ∈ qs, ∃ p, q = .obj p ∧
          ∀ k v, (k, v) ∈ p → k ∈ posKeysOrder) := by
  unfold buildOrderedInvoice at h
  set inv : List (String × Value) :=
    (match inv0.lookup "Numer" with
     | none => inv0 ++ [("Numer", Value.null)]
     | some _ => inv0) with hinv
  have hNum : inv.lookup "Numer" =
      some ((inv0.lookup "Numer").getD .null) := by
    rw [hinv]
    cases hN : inv0.lookup "Numer" with
    | none =>
      rw [lookup_append_right _ _ hN]
      rfl
    | some w => exact hN
  have hPoz : ∀ xs, inv0.lookup "Pozycje" = some (.arr xs) →
      inv.lookup "Pozycje" = some (.arr xs) := by
    intro xs hx
    rw [hinv]
    cases hN : inv0.lookup "Numer" with
    | none => exact lookup_append_left _ _ hx
    | some w => exact hx
  refine ⟨rfl, rfl, buildEntries_mem_keys inv _ out h, ?_, ?_, ?_⟩
  · intro k hk
    cases hL : out.lookup k with
    | none => rfl
    | some v =>
      exact absurd (buildEntries_mem_keys inv _ out h k v (lookup_mem out hL))
        hk
  · exact buildEntries_lookup_plain inv "Numer" (by decide) (by decide) _ out
      h (by decide) _ hNum
  · intro xs hx
    obtain ⟨qs, hqs, hl⟩ :=
      buildEntries_pozycje inv _ out h (by decide) xs (hPoz xs hx)
    refine ⟨qs, hl, ?_⟩
    intro q hq
    obtain ⟨p, hp⟩ := mapOrderPositions_shape xs qs hqs q hq
    exact ⟨orderPosition p, hp, orderPosition_keys p⟩

theorem C10_build_ordered_whitelists_witness :
    buildOrderedInvoice [("Foo", Value.str "x")] =
      some [("Numer", Value.null)] ∧
    List.lookup "Numer" [("Numer", Value.null)] = some Value.null := by
  have h := (C10_build_ordered_whitelists [("Foo", Value.str "x")]
    [("Numer", Value.null)] rfl).2.2.2.2.1
  exact ⟨rfl, h⟩

/-! ### C4: combined date parsing and the 7-day payment deadline -/

theorem digitChar_isDigit {k : Nat} (h : k ≤ 9) : (digitChar k).isDigit = true := by
  interval_cases k <;> decide

theorem digitVal_digitChar (n : Nat) (h : n ≤ 9) : digitVal? (digitChar n) = some n := by
  interval_cases n <;> rfl

theorem twoDigits_pad (n : Nat) (h : n ≤ 99) :
    twoDigits (digitChar (n / 10)) (digitChar (n % 10)) = some n := by
  have h1 : n / 10 ≤ 9 := by omega
  have h2 : n % 10 ≤ 9 := by omega
  simp only [twoDigits, digitVal_digitChar _ h1, digitVal_digitChar _ h2]
  congr 1
  omega

theorem fourDigits_pad (n : Nat) (h : n ≤ 9999) :
    fourDigits (digitChar (n / 1000)) (digitChar (n / 100 % 10))
      (digitChar (n / 10 % 10)) (digitChar (n % 10)) = some n := by
  have h1 : n / 1000 ≤ 9 := by omega
  have h2 : n / 100 % 10 ≤ 9 := by omega
  have h3 : n / 10 % 10 ≤ 9 := by omega
  have h4 : n % 10 ≤ 9 := by omega
  simp only [fourDigits, digitVal_digitChar _ h1, digitVal_digitChar _ h2,
    digitVal_digitChar _ h3, digitVal_digitChar _ h4]
  congr 1
  omega

theorem daysInMonth_le (y m : Nat) : daysInMonth y m ≤ 31 := by
  unfold daysInMonth
  split_ifs <;> omega

theorem parseIso_roundtrip (y m d hh mi ss : Nat) (hv1 : validDate y m d)
    (hv2 : validTime hh mi ss) :
    parseIsoDatetime ⟨(isoDateStr y m d).data ++ 'T' ::
        ((isoTimeStr hh mi ss).data ++ "+00:00".data)⟩ =
      some ⟨y, m, d, hh, mi, ss⟩ := by
  obtain ⟨hy1, hy2, hm1, hm2, hd1, hd2⟩ := hv1
  obtain ⟨hh1, hmi1, hss1⟩ := hv2
  simp only [parseIsoDatetime, isoDateStr, isoTimeStr, pad4chars, pad2chars,
    List.cons_append, List.nil_append]
  have hdm := daysInMonth_le y m
  rw [fourDigits_pad y (by omega), twoDigits_pad m (by omega),
      twoDigits_pad d (by omega), twoDigits_pad hh (by omega),
      twoDigits_pad mi (by omega), twoDigits_pad ss (by omega)]
  have hvd : validDate y m d := ⟨hy1, hy2, hm1, hm2, hd1, hd2⟩
  have hvt : validTime hh mi ss := ⟨hh1, hmi1, hss1⟩
  simp [hvd, hvt]

theorem ne_digitChar_of_Z {k : Nat} (hk : k ≤ 9) : ('Z' : Char) ≠ digitChar k := by
  intro he
  have := digitChar_isDigit hk
  rw [← he] at this
  exact absurd this (by decide)

theorem Z_not_mem_iso_date {y m d : Nat} (hy : y ≤ 9999) (hm : m ≤ 99)
    (hd : d ≤ 99) : ('Z' : Char) ∉ (isoDateStr y m d).data := by
  intro hmem
  change ('Z' : Char) ∈ [digitChar (y / 1000), digitChar (y / 100 % 10),
    digitChar (y / 10 % 10), digitChar (y % 10), '-', digitChar (m / 10),
    digitChar (m % 10), '-', digitChar (d / 10), digitChar (d % 10)] at hmem
  simp only [List.mem_cons, List.not_mem_nil, or_false] at hmem
  rcases hmem with h | h | h | h | h | h | h | h | h | h
  · exact ne_digitChar_of_Z (by omega) h
  · exact ne_digitChar_of_Z (by omega) h
  · exact ne_digitChar_of_Z (by omega) h
  · exact ne_digitChar_of_Z (by omega) h
  · exact absurd h (by decide)
  · exact ne_digitChar_of_Z (by omega) h
  · exact ne_digitChar_of_Z (by omega) h
  · exact absurd h (by decide)
  · exact ne_digitChar_of_Z (by omega) h
  · exact ne_digitChar_of_Z (by omega) h

theorem Z_not_mem_iso_time {hh mi ss : Nat} (h1 : hh ≤ 99) (h2 : mi ≤ 99)
    (h3 : ss ≤ 99) : ('Z' : Char) ∉ (isoTimeStr hh mi ss).data := by
  intro hmem
  change ('Z' : Char) ∈ [digitChar (hh / 10), digitChar (hh % 10), ':',
    digitChar (mi / 10), digitChar (mi % 10), ':', digitChar (ss / 10),
    digitChar (ss % 10)] at hmem
  simp only [List.mem_cons, List.not_mem_nil, or_false] at hmem
  rcases hmem with h | h | h | h | h | h | h | h
  · exact ne_digitChar_of_Z (by omega) h
  · exact ne_digitChar_of_Z (by omega) h
  · exact absurd h (by decide)
  · exact ne_digitChar_of_Z (by omega) h
  · exact ne_digitChar_of_Z (by omega) h
  · exact absurd h (by decide)
  · exact ne_digitChar_of_Z (by omega) h
  · exact ne_digitChar_of_Z (by omega) h

theorem replace_iso (y m d hh mi ss : Nat) (hy : y ≤ 9999) (hm : m ≤ 99)
    (hd : d ≤ 99) (hh9 : hh ≤ 99) (hmi9 : mi ≤ 99) (hss9 : ss ≤ 99) :
    replaceChar 'Z' "+00:00".data
        ((isoDateStr y m d ++ "T" ++ isoTimeStr hh mi ss ++ "Z").data) =
      (isoDateStr y m d).data ++ 'T' ::
        ((isoTimeStr hh mi ss).data ++ "+00:00".data) := by
  rw [String.data_append, String.data_append, String.data_append]
  rw [replaceChar_append, replaceChar_append, replaceChar_append]
  rw [replaceChar_of_not_mem _ _ _ (Z_not_mem_iso_date hy hm hd),
      replaceChar_of_not_mem _ _ _ (Z_not_mem_iso_time hh9 hmi9 hss9)]
  simp [replaceChar, List.append_assoc]

theorem convert_date_valid (y m d hh mi ss : Nat) (hv1 : validDate y m d)
    (hv2 : validTime hh mi ss) :
    convert_date (isoDateStr y m d) (isoTimeStr hh mi ss) =
      .ok (isoDateStr y m d, ⟨y, m, d, hh, mi, ss⟩) := by
  have hdm := daysInMonth_le y m
  obtain ⟨hy1, hy2, hm1, hm2, hd1, hd2⟩ := hv1
  obtain ⟨hh1, hmi1, hss1⟩ := hv2
  have hne1 : isoDateStr y m d ≠ "" := by
    intro he
    have hlen := congrArg (fun s => s.data.length) he
    simp [isoDateStr, pad4chars, pad2chars] at hlen
  have hne2 : isoTimeStr hh mi ss ≠ "" := by
    intro he
    have hlen := congrArg (fun s => s.data.length) he
    simp [isoTimeStr, pad2chars] at hlen
  simp only [convert_date]
  rw [if_neg (by push_neg; exact ⟨hne1, hne2⟩)]
  rw [replace_iso y m d hh mi ss (by omega) (by omega) (by omega) (by omega)
    (by omega) (by omega)]
  rw [parseIso_roundtrip y m d hh mi ss ⟨hy1, hy2, hm1, hm2, hd1, hd2⟩
    ⟨hh1, hmi1, hss1⟩]

/-- Claim C4: a non-empty date and time pair that parses as a valid
date-time yields an issue date equal to the calendar-date part and (in
the produced invoice) a payment deadline of issue date plus 7 calendar
days — e.g. `2025-03-23` / `12:36:11` gives `2025-03-23` and
`2025-03-30` — while an empty date or time field, or an unparseable
combination, raises a malformed-date error. -/
theorem C4_issue_date_and_deadline :
    (∀ y m d hh mi ss : Nat, validDate y m d → validTime hh mi ss →
      convert_date (isoDateStr y m d) (isoTimeStr hh mi ss) =
        .ok (isoDateStr y m d, ⟨y, m, d, hh, mi, ss⟩)) ∧
    (∀ t, convert_date "" t = .error (.malformedDate "" t)) ∧
    (∀ d, convert_date d "" = .error (.malformedDate d "")) ∧
    (∀ d t, parseIsoDatetime ⟨replaceChar 'Z' "+00:00".data
          (d ++ "T" ++ t ++ "Z").data⟩ = none →
      d ≠ "" → t ≠ "" →
      convert_date d t = .error (.malformedDate d t)) ∧
    (∀ row inv dstr dt, convertRow row = .ok inv →
      convert_date ((rowGet row "Data zamówienia" "").pyStrip)
          ((rowGet row "Godzina zamówienia" "").pyStrip) = .ok (dstr, dt) →
      inv.lookup "DataWystawienia" = some (.str dstr) ∧
      inv.lookup "TerminPlatnosci" = some (.str (isoDateOfTriple
        (addDays 7 (dt.year, dt.month, dt.day))))) ∧
    convert_date "2025-03-23" "12:36:11" =
      .ok ("2025-03-23", ⟨2025, 3, 23, 12, 36, 11⟩) ∧
    isoDateOfTriple (addDays 7 (2025, 3, 23)) = "2025-03-30" ∧
    convert_date "2025-03-23" "25:00:00" =
      .error (.malformedDate "2025-03-23" "25:00:00") := by
  refine ⟨convert_date_valid, ?_, ?_, ?_, ?_, rfl, rfl, rfl⟩
  · intro t
    simp [convert_date]
  · intro d
    simp [convert_date]
  · intro d t hp hd ht
    simp only [convert_date]
    rw [if_neg (by push_neg; exact ⟨hd, ht⟩), hp]
  · intro row inv dstr dt hok hdate
    obtain ⟨total, price, t0, q, dstr0, dt0, _, _, _, _, h5, hinv⟩ :=
      convertRow_ok_shape hok
    have := h5.symm.trans hdate
    rw [Except.ok.injEq, Prod.mk.injEq] at this
    obtain ⟨he1, he2⟩ := this
    subst he1
    subst he2
    subst hinv
    exact ⟨rfl, rfl⟩

theorem C4_issue_date_and_deadline_witness :
    validDate 2025 3 23 ∧ validTime 12 36 11 ∧
    convert_date (isoDateStr 2025 3 23) (isoTimeStr 12 36 11) =
      .ok (isoDateStr 2025 3 23, ⟨2025, 3, 23, 12, 36, 11⟩) :=
  ⟨by decide, by decide,
    C4_issue_date_and_deadline.1 2025 3 23 12 36 11 (by decide) (by decide)⟩

/-! ### C2: request signing -/

theorem hexDigitChar_lower {d : Nat} (h : d < 16) :
    ((hexDigitChar d).isDigit ||
      (97 ≤ (hexDigitChar d).toNat && (hexDigitChar d).toNat ≤ 102)) = true := by
  interval_cases d <;> decide

theorem isLowerHex_toHexLower (bs : List Nat) :
    isLowerHex (toHexLower bs) = true := by
  apply List.all_eq_true.mpr
  intro c hc
  have hc2 : c ∈ bs.flatMap
      (fun b => [hexDigitChar (b / 16 % 16), hexDigitChar (b % 16)]) := hc
  rw [List.mem_flatMap] at hc2
  obtain ⟨b, _, hcb⟩ := hc2
  simp only [List.mem_cons, List.not_mem_nil, or_false] at hcb
  rcases hcb with h | h
  · subst h; exact hexDigitChar_lower (by omega)
  · subst h; exact hexDigitChar_lower (by omega)

/-- Claim C2: the POST body is byte-for-byte the serialized JSON that
forms the suffix of the signed message `URL ++ USERNAME ++ KEY_NAME ++
body` (plain concatenation), the HMAC keys itself with the hex-decoded
API key and uses SHA-1 (the abstract digest `H` below, threaded through
the `hmac` module's RFC 2104 construction at block size 64), and the
`Authentication` header is exactly
`IAPIS user=<USERNAME>, hmac-sha1=<lowercase hex digest>`. -/
theorem C2_signing (H : List Nat → List Nat)
    (url username keyName apiKeyHex today deadline : String)
    (inv : List (String × Value)) (req : HttpRequest)
    (h : upload_request H url username keyName apiKeyHex today deadline inv =
      some req) :
    ∃ body keyBytes,
      uploadBody today deadline inv = some body ∧
      hexDecode? apiKeyHex = some keyBytes ∧
      req.postBody = strBytes body ∧
      req.signedMessage = url ++ username ++ keyName ++ body ∧
      req.authHeader = "IAPIS user=" ++ username ++ ", hmac-sha1=" ++
        toHexLower (hmacDigest H 64 keyBytes (strBytes req.signedMessage)) ∧
      isLowerHex (toHexLower
        (hmacDigest H 64 keyBytes (strBytes req.signedMessage))) = true := by
  simp only [upload_request, bind, Option.bind] at h
  cases hB : uploadBody today deadline inv with
  | none => rw [hB] at h; exact Option.noConfusion h
  | some body =>
  rw [hB] at h
  cases hK : hexDecode? apiKeyHex with
  | none => rw [hK] at h; exact Option.noConfusion h
  | some keyBytes =>
  rw [hK] at h
  simp only [Option.some.injEq] at h
  subst h
  exact ⟨body, keyBytes, rfl, rfl, rfl, rfl, rfl, isLowerHex_toHexLower _⟩

theorem C2_signing_witness :
    exUploadRequest.postBody = strBytes exUploadBodyZW ∧
    exUploadRequest.signedMessage =
      "https://e/" ++ "user" ++ "faktura" ++ exUploadBodyZW := by
  obtain ⟨body, keyBytes, h1, h2, h3, h4, h5, h6⟩ :=
    C2_signing exHash "https://e/" "user" "faktura" "0aff" "2025-10-12"
      "2025-10-19" exInvoiceZW exUploadRequest rfl
  have hb : body = exUploadBodyZW := by
    have hx : uploadBody "2025-10-12" "2025-10-19" exInvoiceZW =
        some exUploadBodyZW := rfl
    exact Option.some.inj (h1.symm.trans hx)
  subst hb
  exact ⟨h3, h4⟩

/-! ### C1: null keys in the serialized upload body -/

theorem uploadNormalize_mkInvoice_ZW
    (total t q p : Rat) (inv_date miejsce deadline0 code pname : String)
    (nm em ph ul kp kr mi : String) (today deadline : String) :
    uploadNormalize today deadline
      (mkInvoice total inv_date miejsce deadline0 code
        (mkPosition t q p pname "ZW")
        (mkKontrahent nm em ph ul kp kr mi)) =
      some [("Zaplacono", .num total), ("LiczOd", .str "BRT"),
            ("NumerKontaBankowego", .str "BRAK"),
            ("DataWystawienia", .str today),
            ("MiejsceWystawienia", .str miejsce),
            ("DataSprzedazy", .str today),
            ("FormatDatySprzedazy", .str "DZN"),
            ("TerminPlatnosci", .str deadline),
            ("SposobZaplaty", .str "PRZ"),
            ("NazwaSeriiNumeracji", .str "default"),
            ("NazwaSzablonu", .str ""),
            ("RodzajPodpisuOdbiorcy", .str "OUP"),
            ("PodpisOdbiorcy", .str "Odbiorca"),
            ("PodpisWystawcy", .str "Wystawca"),
            ("Uwagi", .str code),
            ("WidocznyNumerGios", .bool true),
            ("Numer", .null),
            ("Pozycje", .arr [.obj [("StawkaVat", .null), ("Ilosc", .num q),
              ("CenaJednostkowa", .num p), ("NazwaPelna", .str pname),
              ("Jednostka", .str "sztuk"), ("TypStawkiVat", .str "ZW")]]),
            ("Kontrahent", .obj [("Nazwa", .str nm), ("Email", .str em),
              ("Telefon", .str (stripApostrophes ph).pyStrip),
              ("Ulica", .str ul), ("KodPocztowy", .str kp),
              ("Kraj", .str kr), ("Miejscowosc", .str mi),
              ("OsobaFizyczna", .bool true)])] := by
  rfl

theorem uploadNormalize_mkInvoice_PRC
    (total t q p : Rat) (inv_date miejsce deadline0 code pname : String)
    (nm em ph ul kp kr mi : String) (today deadline : String) :
    uploadNormalize today deadline
      (mkInvoice total inv_date miejsce deadline0 code
        (mkPosition t q p pname "PRC")
        (mkKontrahent nm em ph ul kp kr mi)) =
      some [("Zaplacono", .num total), ("LiczOd", .str "BRT"),
            ("NumerKontaBankowego", .str "BRAK"),
            ("DataWystawienia", .str today),
            ("MiejsceWystawienia", .str miejsce),
            ("DataSprzedazy", .str today),
            ("FormatDatySprzedazy", .str "DZN"),
            ("TerminPlatnosci", .str deadline),
            ("SposobZaplaty", .str "PRZ"),
            ("NazwaSeriiNumeracji", .str "default"),
            ("NazwaSzablonu", .str ""),
            ("RodzajPodpisuOdbiorcy", .str "OUP"),
            ("PodpisOdbiorcy", .str "Odbiorca"),
            ("PodpisWystawcy", .str "Wystawca"),
            ("Uwagi", .str code),
            ("WidocznyNumerGios", .bool true),
            ("Numer", .null),
            ("Pozycje", .arr [.obj [("StawkaVat", .num t), ("Ilosc", .num q),
              ("CenaJednostkowa", .num p), ("NazwaPelna", .str pname),
              ("Jednostka", .str "sztuk"), ("TypStawkiVat", .str "PRC")]]),
            ("Kontrahent", .obj [("Nazwa", .str nm), ("Email", .str em),
              ("Telefon", .str (stripApostrophes ph).pyStrip),
              ("Ulica", .str ul), ("KodPocztowy", .str kp),
              ("Kraj", .str kr), ("Miejscowosc", .str mi),
              ("OsobaFizyczna", .bool true)])] := by
  rfl

/-- Claim C1 (amended): `remove_none_values` runs before
`build_ordered_invoice`, which re-inserts a null `Numer` and
`order_position` nulls `StawkaVat` on `ZW` items, so for every
converter-produced invoice the serialized structure carries exactly one
null-valued top-level key, `Numer`, plus a null `StawkaVat` inside each
exempt line item, while the non-null `"BRAK"` bank-account placeholder
survives. -/
theorem C1_null_keys_on_wire (row : Row) (inv : List (String × Value))
    (today deadline : String) (t : Rat)
    (hok : convertRow row = .ok inv)
    (ht : float_from_str
        ((rowGet row "Wartość podatku 0.00 %" "0,00").pyStrip) = .ok t) :
    ∃ out, uploadNormalize today deadline inv = some out ∧
      out.lookup "Numer" = some .null ∧
      out.lookup "NumerKontaBankowego" = some (.str "BRAK") ∧
      (∀ k v, (k, v) ∈ out → v = .null → k = "Numer") ∧
      ∃ pos, out.lookup "Pozycje" = some (.arr [.obj pos]) ∧
        (t = 0 → pos.lookup "StawkaVat" = some .null) ∧
        (t ≠ 0 → pos.lookup "StawkaVat" = some (.num t)) := by
  obtain ⟨total, price, t0, q, dstr, dt, _, _, h3, _, _, hinv⟩ :=
    convertRow_ok_shape hok
  have htt : t0 = t := by
    have := h3.symm.trans ht
    injection this
  subst htt
  subst hinv
  by_cases h0 : t0 = 0
  · rw [if_pos h0, uploadNormalize_mkInvoice_ZW]
    refine ⟨_, rfl, rfl, rfl, ?_, _, rfl, fun _ => rfl, fun hne => absurd h0 hne⟩
    intro k v hm hv
    subst hv
    simp at hm
    exact hm
  · rw [if_neg h0, uploadNormalize_mkInvoice_PRC]
    refine ⟨_, rfl, rfl, rfl, ?_, _, rfl, fun he => absurd he h0, fun _ => rfl⟩
    intro k v hm hv
    subst hv
    simp at hm
    exact hm

theorem C1_null_keys_witness :
    ((uploadNormalize "2025-10-12" "2025-10-19" exInvoiceZW).map
      (fun out => List.lookup "Numer" out)) = some (some Value.null) := by
  obtain ⟨out, h1, h2, _⟩ :=
    C1_null_keys_on_wire exRowZW exInvoiceZW "2025-10-12" "2025-10-19" 0 rfl
      rfl
  rw [h1, Option.map_some', h2]

/-- Claim C1 is false as stated: for a converted exempt-VAT order whose
`Numer` field is null, the serialized upload body does transmit
`"Numer":null` and `"StawkaVat":null` (the `"BRAK"` placeholder indeed
survives). -/
theorem C1_counterexample :
    convertRow exRowZW = .ok exInvoiceZW ∧
    List.lookup "Numer" exInvoiceZW = some Value.null ∧
    List.lookup "Pozycje" exInvoiceZW = some (.arr [.obj
      (mkPosition 0 1 100 "Wejście na wydarzenie Koncert" "ZW")]) ∧
    (uploadBody "2025-10-12" "2025-10-19" exInvoiceZW).map
        (fun b => (strContains b "\"Numer\":null",
                   strContains b "\"StawkaVat\":null",
                   strContains b "\"NumerKontaBankowego\":\"BRAK\""))
      = some (true, true, true) :=
  ⟨rfl, rfl, rfl, rfl⟩

end PretixIFirma
